import Mathlib

/-!
# Verification of the qmk2srgb per-file transform

Shallow embedding of the core of `qmk2srgb.py` (the per-file coordinate
normalization and label resolution, source lines 358-430).  The script reads a
parsed QMK `info.json` document and produces, per input file, a grid size
(`width`, `height`), the LED index list, the LED display-name list and the LED
grid-position list.

Modelling conventions:
* Numeric coordinate values (`x`, `y`, matrix row/column) are modelled as `Int`.
* Python strings are modelled as `List Char`.
* Python-level exceptions are modelled with `Except PyErr`; the script wraps
  each file in a broad `try/except` that skips the file on any exception.
* `list(set(sorted(...)))` is modelled faithfully: `sorted` as an ascending
  sort, and `list(set(...))` via a model of CPython's set hash table
  (`Objects/setobject.c`), because the iteration order of the resulting list is
  the hash-table slot order, not the sorted order.  The probe loop of the hash
  table is given explicit fuel; exhausting the fuel yields the model-internal
  error `PyErr.setFuel`, which never occurs on any input evaluated here.
-/

set_option autoImplicit false

namespace Qmk2Srgb

/-! ## Decimal rendering of the unnamed counter (Python `f"Light {unnamed}"`) -/

/-- The ASCII digit character for `d` (`0 ≤ d ≤ 9`). -/
def digitChar (d : Nat) : Char := Char.ofNat (48 + d)

/-- Decimal rendering of a natural number, fuelled by the first argument
(structural recursion; the fuel is always sufficient since `n / 10 < n`). -/
def pyDecimalAux : Nat → Nat → List Char
  | 0, _ => []
  | f + 1, n =>
    if n < 10 then [digitChar n]
    else pyDecimalAux f (n / 10) ++ [digitChar (n % 10)]

/-- Decimal rendering of a natural number, as Python `str(n)` produces for a
nonnegative integer. -/
def pyDecimal (n : Nat) : List Char := pyDecimalAux (n + 1) n

/-- Left inverse of `pyDecimal`: reads a digit string back as a number. -/
def parseNum (l : List Char) : Nat := l.foldl (fun a c => a * 10 + (c.toNat - 48)) 0

/-- The fallback display name `f"Light {n}"` assigned by the script to an LED
with no usable metadata label. -/
def lightName (n : Nat) : List Char := "Light ".toList ++ pyDecimal n

/-! ## Label sanitization (source lines 399-406) -/

/-- Python exceptions raised (or modelled) inside the per-file transform. -/
inductive PyErr where
  /-- `TypeError`: `unicodedata.name` applied to a string that is not exactly
  one character. -/
  | typeErr
  /-- `ValueError` from `unicodedata.name`: the character has no name. -/
  | valueErrName
  /-- `ValueError` from `list.index`: value not present in the list. -/
  | valueErrIndex
  /-- Model artifact: the fuel of the CPython-set probe loop ran out.  This
  error has no Python counterpart; CPython's probe loop always terminates. -/
  | setFuel
deriving DecidableEq, Repr

/-- Python `str.isascii`: every code point is below `U+0080`. -/
def pyIsAscii (l : List Char) : Bool := l.all (fun c => c.toNat < 128)

/-- Modelled from the Unicode Character Database used by Python's
`unicodedata.name`: a finite fragment of the code-point → name table,
sufficient for the characters this development evaluates.  Characters outside
the fragment are treated as unnamed. -/
def ucdName (c : Char) : Option (List Char) :=
  if c = 'é' then some ("LATIN SMALL LETTER E WITH ACUTE".toList)
  else none

/-- Python `unicodedata.name(s)`: defined only when `s` is exactly one
character (otherwise `TypeError`); raises `ValueError` when the character has
no name. -/
def unicodedataName (l : List Char) : Except PyErr (List Char) :=
  match l with
  | [c] =>
    match ucdName c with
    | some n => .ok n
    | none => .error .valueErrName
  | _ => .error .typeErr

/-- Python `str.replace` for a single-character pattern: every occurrence of
`c` is replaced by `r`. -/
def pyReplaceChar : List Char → Char → List Char → List Char
  | [], _, _ => []
  | a :: t, c, r => (if a = c then r else [a]) ++ pyReplaceChar t c r

/-- The escaping applied to a resolved label (source lines 403-406): double
each backslash, then escape each double quote, each behind an `in` guard. -/
def escapeLbl (l : List Char) : List Char :=
  let l1 := if '\\' ∈ l then pyReplaceChar l '\\' ['\\', '\\'] else l
  if '"' ∈ l1 then pyReplaceChar l1 '"' ['\\', '"'] else l1

/-- The whole label sanitization (source lines 400-406): replace a non-ASCII
label by its Unicode character name (which can raise), then escape. -/
def sanitizeLabel (l : List Char) : Except PyErr (List Char) :=
  match (if pyIsAscii l then Except.ok l else unicodedataName l) with
  | .error e => .error e
  | .ok l2 => .ok (escapeLbl l2)

/-- Per-character canonical escaping, following the spec's escaping law:
`\` becomes `\\`, `"` becomes `\"`, all else is untouched. -/
def escChar (c : Char) : List Char :=
  if c = '\\' then ['\\', '\\']
  else if c = '"' then ['\\', '"']
  else [c]

/-- A string is well escaped when every backslash is followed by a backslash
or a quote (consuming both) and no bare double quote occurs. -/
def wellEscaped : List Char → Bool
  | [] => true
  | c :: rest =>
    if c = '"' then false
    else if c = '\\' then
      match rest with
      | [] => false
      | c2 :: rest2 => (c2 = '\\' || c2 = '"') && wellEscaped rest2
    else wellEscaped rest

/-! ## CPython set model (`Objects/setobject.c`)

`xs = list(set(sorted(...)))` exposes the iteration order of a CPython set,
which is the slot order of its open-addressed hash table.  The model below
follows `set_add_entry`, `set_insert_clean` and `set_table_resize` of CPython
3.11 for `int` elements (no deletions, so there are never dummy entries). -/

/-- `LINEAR_PROBES` of `setobject.c`. -/
def linearProbes : Nat := 9

/-- `PERTURB_SHIFT` of `setobject.c`. -/
def perturbShift : Nat := 5

/-- `PySet_MINSIZE` of `setobject.c`. -/
def pySetMinSize : Nat := 8

/-- CPython's hash of an `int`: reduce the absolute value modulo the Mersenne
prime `2^61 - 1` keeping the sign, then map `-1` to `-2`. -/
def pyHashInt (n : Int) : Int :=
  let M : Int := 2 ^ 61 - 1
  let h : Int := if 0 ≤ n then n % M else -((-n) % M)
  if h = -1 then -2 else h

/-- The C `(size_t)` cast of a hash: reduce modulo `2^64` into `[0, 2^64)`. -/
def usize (h : Int) : Nat := (h % (2 ^ 64 : Int)).toNat

/-- A CPython set of `int`s: the slot table (length a power of two, at least
`8`) and the number of active entries (`used`; equal to `fill`, since no
entry is ever deleted). -/
structure PySet where
  table : List (Option Int)
  used : Nat
deriving DecidableEq, Repr

/-- A fresh empty set: eight empty slots. -/
def emptyPySet : PySet := ⟨List.replicate pySetMinSize none, 0⟩

/-- The elements of a set in iteration order: slot order of the table. -/
def setElems (s : PySet) : List Int := s.table.filterMap id

/-- The size growth loop of `set_table_resize`: starting from
`PySet_MINSIZE`, double while `newsize <= minused` (fuelled; the fuel
`minused + 1` always suffices since the size at least doubles each step). -/
def growSizeAux : Nat → Nat → Nat → Nat
  | 0, ns, _ => ns
  | f + 1, ns, mu => if ns ≤ mu then growSizeAux f (ns * 2) mu else ns

/-- The new table size chosen by `set_table_resize` for a given `minused`. -/
def growSize (minused : Nat) : Nat := growSizeAux (minused + 1) pySetMinSize minused

/-- The inner linear scan of `set_insert_clean`: the first empty slot among
`i, i+1, …, i+c-1`. -/
def findEmptyLin (t : List (Option Int)) : Nat → Nat → Option Nat
  | _, 0 => none
  | i, c + 1 => if t.getD i none = none then some i else findEmptyLin t (i + 1) c

/-- The probe loop of `set_insert_clean`: slot `i`; then, when the linear
range fits under the mask, slots `i+1, …, i+LINEAR_PROBES`; then perturb. -/
def cleanLoop (t : List (Option Int)) (mask : Nat) : Nat → Nat → Nat → Option Nat
  | _, _, 0 => none
  | i, perturb, f + 1 =>
    if t.getD i none = none then some i
    else
      match (if i + linearProbes ≤ mask then findEmptyLin t (i + 1) linearProbes else none) with
      | some j => some j
      | none =>
        let p2 := perturb >>> perturbShift
        cleanLoop t mask ((i * 5 + 1 + p2) &&& mask) p2 f

/-- `set_insert_clean`: place `key` (known absent) into the first empty slot
found by the probe sequence of its hash. -/
def insertClean (t : List (Option Int)) (key : Int) : Option (List (Option Int)) :=
  let hash := pyHashInt key
  let mask := t.length - 1
  (cleanLoop t mask (usize hash &&& mask) (usize hash) (t.length + 16)).map
    (fun slot => t.set slot (some key))

/-- `set_table_resize`: allocate the grown table and re-insert every active
entry of the old table, in slot order, with `set_insert_clean`. -/
def setResize (s : PySet) (minused : Nat) : Option PySet :=
  let newsize := growSize minused
  ((setElems s).foldlM insertClean (List.replicate newsize none)).map
    (fun t => ⟨t, s.used⟩)

/-- One slot check of `set_add_entry`: empty slot found (`(true, i)`), the key
itself found (`(false, i)`), or occupied by another key (`none`). -/
def checkSlot (t : List (Option Int)) (key : Int) (i : Nat) : Option (Bool × Nat) :=
  match t.getD i none with
  | none => some (true, i)
  | some k => if k = key then some (false, i) else none

/-- The inner do-while of `set_add_entry`: check slots `i, i+1, …, i+probes`. -/
def scanRun (t : List (Option Int)) (key : Int) : Nat → Nat → Option (Bool × Nat)
  | i, 0 => checkSlot t key i
  | i, p + 1 =>
    match checkSlot t key i with
    | some r => some r
    | none => scanRun t key (i + 1) p

/-- The outer probe loop of `set_add_entry` (fuelled). -/
def probeLoop (t : List (Option Int)) (mask : Nat) (key : Int) :
    Nat → Nat → Nat → Option (Bool × Nat)
  | _, _, 0 => none
  | i, perturb, f + 1 =>
    let probes := if i + linearProbes ≤ mask then linearProbes else 0
    match scanRun t key i probes with
    | some r => some r
    | none =>
      let p2 := perturb >>> perturbShift
      probeLoop t mask key ((i * 5 + 1 + p2) &&& mask) p2 f

/-- `set_add_entry` (via `set_add_key`): look the key up along its probe
sequence; if absent, place it in the empty slot found and grow the table when
`fill * 5 >= mask * 3`. -/
def setAdd (s : PySet) (key : Int) : Option PySet :=
  let hash := pyHashInt key
  let mask := s.table.length - 1
  match probeLoop s.table mask key (usize hash &&& mask) (usize hash) (s.table.length + 16) with
  | none => none
  | some (false, _) => some s
  | some (true, slot) =>
    let t2 := s.table.set slot (some key)
    let fill2 := s.used + 1
    if fill2 * 5 < mask * 3 then some ⟨t2, fill2⟩
    else setResize ⟨t2, fill2⟩ (if fill2 > 50000 then fill2 * 2 else fill2 * 4)

/-- Python `set(iterable)`: insert the elements one by one. -/
def pySetOfList (l : List Int) : Option PySet := l.foldlM setAdd emptyPySet

/-- Python `sorted` on numbers: ascending numeric sort. -/
def pySorted (l : List Int) : List Int := List.insertionSort (· ≤ ·) l

/-- `list(set(sorted(values)))` (source lines 367-382): the axis sequence the
script builds, in CPython set-iteration order. -/
def buildAxis (vals : List Int) : Option (List Int) :=
  (pySetOfList (pySorted vals)).map setElems

/-- Spec-side axis (what §4.1 of the spec prescribes): the distinct selected
values in ascending numeric order. -/
def specAxis (vals : List Int) : List Int := (pySorted vals).dedup

/-! ## Data model and the per-file transform (source lines 367-413) -/

/-- One entry of `rgb_matrix.layout`: device-space coordinates `x`, `y` and
the optional `matrix` pair, modelled as `(row, column)` for
`(matrix[0], matrix[1])`. -/
structure Led where
  x : Int
  y : Int
  matrix : Option (Int × Int)
deriving DecidableEq, Repr

/-- One entry of the first physical layout's `layout` list: its `matrix` pair
`(row, column)` and the optional `label` field. -/
structure KeyMeta where
  matrix : Int × Int
  label : Option (List Char)
deriving DecidableEq, Repr

/-- The part of the parsed `info.json` the core transform consumes:
`rgb_matrix.layout` in order, and, when the document has a `layouts` mapping,
the `layout` list of its first value. -/
structure Doc where
  layout : List Led
  layouts : Option (List KeyMeta)
deriving DecidableEq, Repr

/-- The generated value tables: grid size, LED indices (`vkeys`), display
names (`vkeynames`) and grid positions (`vkeypositions`). -/
structure Output where
  width : Nat
  height : Nat
  ledIndices : List Nat
  ledNames : List (List Char)
  ledPositions : List (Nat × Nat)
deriving DecidableEq, Repr

/-- The selected X-domain coordinate of an LED (source lines 370 and 391):
`led["x"] if not args.matrix_sizing or "matrix" not in led else led["matrix"][1]`. -/
def selX (ms : Bool) (led : Led) : Int :=
  match ms, led.matrix with
  | true, some m => m.2
  | _, _ => led.x

/-- The selected Y-domain coordinate of an LED (source lines 378 and 392):
`led["y"] if not args.matrix_sizing or "matrix" not in led else led["matrix"][0]`. -/
def selY (ms : Bool) (led : Led) : Int :=
  match ms, led.matrix with
  | true, some m => m.1
  | _, _ => led.y

/-- Python `list.index`: the index of the first occurrence, `ValueError` when
the value is absent. -/
def pyIndex : List Int → Int → Except PyErr Nat
  | [], _ => .error .valueErrIndex
  | a :: t, v => if a = v then .ok 0 else (pyIndex t v).map (· + 1)

/-- A Python `dict` with `Int` keys and `Nat` values, as an insertion-ordered
association list. -/
def pySetdefault (d : List (Int × Nat)) (k : Int) (v : Nat) : Nat × List (Int × Nat) :=
  match d.find? (fun p => p.1 == k) with
  | some p => (p.2, d)
  | none => (v, d ++ [(k, v)])

/-- The metadata lookup (source lines 396-398):
`next((x for x in list(i_json["layouts"].values())[0]["layout"] if x["matrix"] == led["matrix"]), None)`. -/
def findKey (meta : List KeyMeta) (m : Int × Int) : Option KeyMeta :=
  meta.find? (fun k => k.matrix == m)

/-- The mutable state of the per-LED loop: the unnamed counter, the two
collapse memo dicts, and the name and position lists built so far. -/
structure LoopState where
  unnamed : Nat
  matxs : List (Int × Nat)
  matys : List (Int × Nat)
  names : List (List Char)
  poss : List (Nat × Nat)
deriving DecidableEq, Repr

/-- The loop state at the start of each file (source lines 384-388). -/
def initState : LoopState := ⟨0, [], [], [], []⟩

/-- The `lbl is None` branch (source lines 407-409): bump the unnamed counter
and assign `f"Light {unnamed}"`. -/
def fallbackStep (st : LoopState) (mx my : List (Int × Nat)) (lx ly : Nat) : LoopState :=
  { unnamed := st.unnamed + 1, matxs := mx, matys := my,
    names := st.names ++ [lightName (st.unnamed + 1)], poss := st.poss ++ [(lx, ly)] }

/-- Appending a resolved metadata label (source lines 410-411). -/
def labelStep (st : LoopState) (mx my : List (Int × Nat)) (lx ly : Nat)
    (lbl : List Char) : LoopState :=
  { unnamed := st.unnamed, matxs := mx, matys := my,
    names := st.names ++ [lbl], poss := st.poss ++ [(lx, ly)] }

/-- The part of the loop body after the two rank lookups succeeded with
`lx0`, `ly0` (source lines 393-411): the matrix-sizing collapse memos
(`matxs` keyed by `matrix[0]`, `matys` keyed by `matrix[1]`, exactly as in the
source), the metadata label lookup and sanitization, and the fallback
naming. -/
def processLedCore (ms : Bool) (lo : Option (List KeyMeta)) (st : LoopState)
    (led : Led) (lx0 ly0 : Nat) : Except PyErr LoopState :=
  match led.matrix, lo with
  | some m, some meta =>
    let r1 := if ms then pySetdefault st.matxs m.1 lx0 else (lx0, st.matxs)
    let r2 := if ms then pySetdefault st.matys m.2 ly0 else (ly0, st.matys)
    match findKey meta m with
    | some k =>
      match k.label with
      | some rawl =>
        match sanitizeLabel rawl with
        | .error e => .error e
        | .ok lbl => .ok (labelStep st r1.2 r2.2 r1.1 r2.1 lbl)
      | none => .ok (fallbackStep st r1.2 r2.2 r1.1 r2.1)
    | none => .ok (fallbackStep st r1.2 r2.2 r1.1 r2.1)
  | _, _ => .ok (fallbackStep st st.matxs st.matys lx0 ly0)

/-- The body of the per-LED loop (source lines 389-411): rank lookups on both
axes (a failing lookup raises, first axis first), then `processLedCore`. -/
def processLed (ms : Bool) (xs ys : List Int) (lo : Option (List KeyMeta))
    (st : LoopState) (led : Led) : Except PyErr LoopState :=
  match pyIndex xs (selX ms led), pyIndex ys (selY ms led) with
  | .error e, _ => .error e
  | _, .error e => .error e
  | .ok lx0, .ok ly0 => processLedCore ms lo st led lx0 ly0

/-- The whole per-file transform (source lines 367-413): build both axis
sequences, run the per-LED loop in order, and collect grid size, index list
(`range(0, len(layout))`), names and positions. -/
def transform (d : Doc) (ms : Bool) : Except PyErr Output :=
  match buildAxis (d.layout.map (selX ms)), buildAxis (d.layout.map (selY ms)) with
  | some xs, some ys =>
    match d.layout.foldlM (processLed ms xs ys d.layouts) initState with
    | .error e => .error e
    | .ok st => .ok { width := xs.length, height := ys.length,
                      ledIndices := List.range d.layout.length,
                      ledNames := st.names, ledPositions := st.poss }
  | _, _ => .error .setFuel

/-- Whether an LED ends the loop with `lbl is None`, i.e. receives a fallback
name: no `matrix` attribute, no `layouts` metadata, no matching metadata
entry, or a matching entry without a `label` field. -/
def usesFallback (lo : Option (List KeyMeta)) (led : Led) : Bool :=
  match led.matrix, lo with
  | some m, some meta =>
    match findKey meta m with
    | some k => k.label.isNone
    | none => true
  | _, _ => true

/-- The names of the fallback-named LEDs, in order: zip the LEDs with their
resolved names and keep the names of those that used the fallback. -/
def fbFilter (lo : Option (List KeyMeta)) (leds : List Led)
    (names : List (List Char)) : List (List Char) :=
  ((leds.zip names).filter (fun p => usesFallback lo p.1)).map (fun p => p.2)

/-- Spec-side positions (claim C1's reading of §4.1-4.2): each LED's grid
coordinates as the 0-based rank of its selected coordinate in the ascending
sorted distinct axis values. -/
def specPositions (d : Doc) (ms : Bool) : List (Nat × Nat) :=
  d.layout.map (fun led =>
    (List.indexOf (selX ms led) (specAxis (d.layout.map (selX ms))),
     List.indexOf (selY ms led) (specAxis (d.layout.map (selY ms)))))

/-- The loop-state invariant behind the position bounds: every memoised grid
coordinate and every emitted position is below the axis length. -/
def StBounds (nx ny : Nat) (st : LoopState) : Prop :=
  (∀ p ∈ st.matxs, p.2 < nx) ∧ (∀ p ∈ st.matys, p.2 < ny) ∧
    (∀ p ∈ st.poss, p.1 < nx ∧ p.2 < ny)

/-! ## Concrete input documents used as evaluation points -/

/-- Two LEDs at integer `x` coordinates `1` and `8` (same `y`), no matrix
data.  CPython's `list(set(sorted([1, 8])))` is `[8, 1]`: the hash table
places `8` in slot `8 & 7 = 0` and `1` in slot `1`. -/
def c1doc : Doc := ⟨[⟨1, 0, none⟩, ⟨8, 0, none⟩], none⟩

/-- The output the script computes for `c1doc` with matrix sizing off. -/
def c1out : Output := ⟨2, 1, [0, 1], [lightName 1, lightName 2], [(1, 0), (0, 0)]⟩

/-- Three LEDs with matrix pairs `(0,0)`, `(1,0)`, `(1,1)` (row, column), a
present but empty metadata list, for matrix-sizing mode. -/
def c2doc : Doc :=
  ⟨[⟨0, 0, some (0, 0)⟩, ⟨1, 1, some (1, 0)⟩, ⟨2, 2, some (1, 1)⟩], some []⟩

/-- The output the script computes for `c2doc` in matrix-sizing mode: the
second and third LED share matrix row `1` yet get `gridY` `0` and `1`. -/
def c2out : Output :=
  ⟨2, 2, [0, 1, 2], [lightName 1, lightName 2, lightName 3], [(0, 0), (0, 0), (0, 1)]⟩

/-- One LED whose matching metadata label is the two-character non-ASCII
string `"aé"`. -/
def c3doc : Doc := ⟨[⟨0, 0, some (0, 0)⟩], some [⟨(0, 0), some ['a', 'é']⟩]⟩

/-- One LED whose matching metadata label is the empty string. -/
def c4doc : Doc := ⟨[⟨0, 0, some (0, 0)⟩], some [⟨(0, 0), some []⟩]⟩

/-- The output the script computes for `c4doc`: the resolved name is the
empty string, not a fallback name. -/
def c4out : Output := ⟨1, 1, [0], [[]], [(0, 0)]⟩

/-! ## Lemmas: decimal rendering -/

theorem digitChar_toNat {d : Nat} (h : d < 10) : (digitChar d).toNat = 48 + d := by
  interval_cases d <;> decide

theorem parseNum_append_digit (l : List Char) (c : Char) :
    parseNum (l ++ [c]) = parseNum l * 10 + (c.toNat - 48) := by
  simp [parseNum, List.foldl_append]

theorem parseNum_pyDecimalAux : ∀ f n, n < f → parseNum (pyDecimalAux f n) = n := by
  intro f
  induction f with
  | zero => omega
  | succ f ih =>
    intro n hn
    by_cases h10 : n < 10
    · simp only [pyDecimalAux, if_pos h10, parseNum, List.foldl]
      rw [digitChar_toNat h10]
      omega
    · have hpos : 0 < n := by omega
      have hdiv : n / 10 < n := Nat.div_lt_self hpos (by omega)
      simp only [pyDecimalAux, if_neg h10]
      rw [parseNum_append_digit, ih (n / 10) (by omega),
        digitChar_toNat (Nat.mod_lt n (by omega))]
      omega

theorem parseNum_pyDecimal (n : Nat) : parseNum (pyDecimal n) = n :=
  parseNum_pyDecimalAux (n + 1) n (Nat.lt_succ_self n)

theorem pyDecimal_injective : Function.Injective pyDecimal := by
  intro a b h
  have := parseNum_pyDecimal a
  rw [h, parseNum_pyDecimal] at this
  omega

theorem lightName_injective : Function.Injective lightName := by
  intro a b h
  exact pyDecimal_injective (List.append_cancel_left h)

/-! ## Lemmas: escaping -/

theorem pyReplaceChar_eq_flatMap (l : List Char) (c : Char) (r : List Char) :
    pyReplaceChar l c r = l.flatMap (fun a => if a = c then r else [a]) := by
  induction l with
  | nil => rfl
  | cons a t ih => simp only [pyReplaceChar, ih, List.flatMap_cons]

theorem flatMap_subst_of_not_mem {l : List Char} {c : Char} (r : List Char) (h : c ∉ l) :
    (l.flatMap (fun a => if a = c then r else [a])) = l := by
  induction l with
  | nil => rfl
  | cons a t ih =>
    simp only [List.mem_cons, not_or] at h
    have hac : ¬ a = c := fun hac => h.1 hac.symm
    simp only [List.flatMap_cons, if_neg hac, ih h.2, List.singleton_append]

theorem flatMap_flatMap_chars (l : List Char) (f g : Char → List Char) :
    (l.flatMap f).flatMap g = l.flatMap (fun c => (f c).flatMap g) := by
  induction l with
  | nil => rfl
  | cons a t ih => simp only [List.flatMap_cons, List.flatMap_append, ih]

theorem escapeLbl_eq_flatMap (l : List Char) : escapeLbl l = l.flatMap escChar := by
  have h1 : (if '\\' ∈ l then pyReplaceChar l '\\' ['\\', '\\'] else l) =
      l.flatMap (fun a => if a = '\\' then ['\\', '\\'] else [a]) := by
    by_cases hb : '\\' ∈ l
    · rw [if_pos hb, pyReplaceChar_eq_flatMap]
    · rw [if_neg hb, flatMap_subst_of_not_mem _ hb]
  have h2 : ∀ l1 : List Char, (if '"' ∈ l1 then pyReplaceChar l1 '"' ['\\', '"'] else l1) =
      l1.flatMap (fun a => if a = '"' then ['\\', '"'] else [a]) := by
    intro l1
    by_cases hq : '"' ∈ l1
    · rw [if_pos hq, pyReplaceChar_eq_flatMap]
    · rw [if_neg hq, flatMap_subst_of_not_mem _ hq]
  show (if '"' ∈ _ then _ else _) = _
  rw [h2, h1, flatMap_flatMap_chars]
  refine List.flatMap_congr (fun c _ => ?_)
  by_cases hb : c = '\\'
  · subst hb
    decide
  · by_cases hq : c = '"'
    · subst hq
      decide
    · simp only [escChar, if_neg hb, if_neg hq, List.flatMap_cons,
        List.flatMap_nil, List.append_nil]

theorem wellEscaped_cons_other {a : Char} (rest : List Char) (hq : a ≠ '"')
    (hb : a ≠ '\\') : wellEscaped (a :: rest) = wellEscaped rest := by
  cases rest <;> simp [wellEscaped, hq, hb]

theorem wellEscaped_flatMap (l : List Char) : wellEscaped (l.flatMap escChar) = true := by
  induction l with
  | nil => rfl
  | cons a t ih =>
    rw [List.flatMap_cons]
    by_cases hb : a = '\\'
    · subst hb
      simpa [escChar, wellEscaped] using ih
    · by_cases hq : a = '"'
      · subst hq
        simpa [escChar, wellEscaped] using ih
      · rw [show escChar a = [a] by simp [escChar, hb, hq], List.singleton_append,
          wellEscaped_cons_other _ hq hb]
        exact ih

/-! ## Lemmas: sanitization and rank lookup -/

theorem sanitizeLabel_ascii {l : List Char} (h : pyIsAscii l = true) :
    sanitizeLabel l = .ok (escapeLbl l) := by
  simp [sanitizeLabel, h]

theorem unicodedataName_error {l : List Char} {e : PyErr}
    (h : unicodedataName l = .error e) : e = .typeErr ∨ e = .valueErrName := by
  match l with
  | [] => simp only [unicodedataName, Except.error.injEq] at h; exact Or.inl h.symm
  | [c] =>
    cases hu : ucdName c <;> simp only [unicodedataName, hu, Except.error.injEq,
      reduceCtorEq] at h
    exact Or.inr h.symm
  | a :: b :: t =>
    simp only [unicodedataName, Except.error.injEq] at h
    exact Or.inl h.symm

theorem sanitizeLabel_error {l : List Char} {e : PyErr}
    (h : sanitizeLabel l = .error e) : e = .typeErr ∨ e = .valueErrName := by
  unfold sanitizeLabel at h
  by_cases ha : pyIsAscii l
  · simp [ha] at h
  · simp only [ha, Bool.false_eq_true, if_false] at h
    cases hu : unicodedataName l with
    | error e2 =>
      rw [hu] at h
      simp only [Except.error.injEq] at h
      subst h
      exact unicodedataName_error hu
    | ok l2 => rw [hu] at h; simp at h

theorem pyIndex_mem {l : List Int} {v : Int} (h : v ∈ l) :
    ∃ n, pyIndex l v = .ok n ∧ n < l.length := by
  induction l with
  | nil => cases h
  | cons a t ih =>
    by_cases hav : a = v
    · exact ⟨0, by simp [pyIndex, hav], by simp⟩
    · have hvt : v ∈ t := by
        cases h with
        | head => exact absurd rfl hav
        | tail _ h2 => exact h2
      obtain ⟨n, hn, hlt⟩ := ih hvt
      refine ⟨n + 1, ?_, by simp only [List.length_cons]; omega⟩
      simp [pyIndex, hav, hn, Except.map]

/-! ## Lemmas: the CPython set model preserves the element set -/

theorem checkSlot_true {t : List (Option Int)} {key : Int} {i r : Nat}
    (h : checkSlot t key i = some (true, r)) : r = i ∧ t.getD i none = none := by
  unfold checkSlot at h
  cases hg : t.getD i none with
  | none =>
    rw [hg] at h
    simp only [Option.some.injEq, Prod.mk.injEq] at h
    exact ⟨h.2.symm, rfl⟩
  | some k =>
    rw [hg] at h
    by_cases hk : k = key <;> simp [hk] at h

theorem checkSlot_false {t : List (Option Int)} {key : Int} {i r : Nat}
    (h : checkSlot t key i = some (false, r)) : r = i ∧ t.getD i none = some key := by
  unfold checkSlot at h
  cases hg : t.getD i none with
  | none => rw [hg] at h; simp at h
  | some k =>
    rw [hg] at h
    by_cases hk : k = key
    · subst hk
      simp at h
      exact ⟨h.symm, rfl⟩
    · simp [hk] at h

theorem checkSlot_props {t : List (Option Int)} {key : Int} {i : Nat} {b : Bool} {r : Nat}
    (h : checkSlot t key i = some (b, r)) :
    r = i ∧ (b = true → t.getD i none = none) ∧ (b = false → t.getD i none = some key) := by
  cases b with
  | false =>
    obtain ⟨h1, h2⟩ := checkSlot_false h
    exact ⟨h1, fun hb => absurd hb (by decide), fun _ => h2⟩
  | true =>
    obtain ⟨h1, h2⟩ := checkSlot_true h
    exact ⟨h1, fun _ => h2, fun hb => absurd hb (by decide)⟩

theorem scanRun_some {t : List (Option Int)} {key : Int} :
    ∀ {p i : Nat} {b : Bool} {r : Nat}, scanRun t key i p = some (b, r) →
      i ≤ r ∧ r ≤ i + p ∧ (b = true → t.getD r none = none) ∧
        (b = false → t.getD r none = some key) := by
  intro p
  induction p with
  | zero =>
    intro i b r h
    simp only [scanRun] at h
    obtain ⟨hr, h2, h3⟩ := checkSlot_props h
    subst hr
    exact ⟨le_refl _, by omega, h2, h3⟩
  | succ p ih =>
    intro i b r h
    simp only [scanRun] at h
    cases hc : checkSlot t key i with
    | some pr =>
      obtain ⟨b2, r2⟩ := pr
      rw [hc] at h
      simp only [Option.some.injEq, Prod.mk.injEq] at h
      obtain ⟨hb, hr⟩ := h
      subst hb; subst hr
      obtain ⟨hr, h2, h3⟩ := checkSlot_props hc
      subst hr
      exact ⟨le_refl _, by omega, h2, h3⟩
    | none =>
      rw [hc] at h
      obtain ⟨h1, h2, h3, h4⟩ := ih h
      exact ⟨by omega, by omega, h3, h4⟩

theorem probeLoop_some {t : List (Option Int)} {mask : Nat} {key : Int} :
    ∀ {fuel i per : Nat} {b : Bool} {r : Nat},
      probeLoop t mask key i per fuel = some (b, r) → i ≤ mask →
      r ≤ mask ∧ (b = true → t.getD r none = none) ∧
        (b = false → t.getD r none = some key) := by
  intro fuel
  induction fuel with
  | zero => intro i per b r h hi; simp [probeLoop] at h
  | succ fuel ih =>
    intro i per b r h hi
    simp only [probeLoop] at h
    by_cases hp : i + linearProbes ≤ mask
    · rw [if_pos hp] at h
      cases hs : scanRun t key i linearProbes with
      | some pr =>
        obtain ⟨b2, r2⟩ := pr
        rw [hs] at h
        simp only [Option.some.injEq, Prod.mk.injEq] at h
        obtain ⟨hb, hr⟩ := h
        subst hb; subst hr
        obtain ⟨s1, s2, s3, s4⟩ := scanRun_some hs
        have h9 : linearProbes = 9 := rfl
        exact ⟨by omega, s3, s4⟩
      | none =>
        rw [hs] at h
        exact ih h Nat.and_le_right
    · rw [if_neg hp] at h
      cases hs : scanRun t key i 0 with
      | some pr =>
        obtain ⟨b2, r2⟩ := pr
        rw [hs] at h
        simp only [Option.some.injEq, Prod.mk.injEq] at h
        obtain ⟨hb, hr⟩ := h
        subst hb; subst hr
        obtain ⟨s1, s2, s3, s4⟩ := scanRun_some hs
        exact ⟨by omega, s3, s4⟩
      | none =>
        rw [hs] at h
        exact ih h Nat.and_le_right

theorem filterMap_set_perm :
    ∀ (t : List (Option Int)) (slot : Nat) (key : Int), slot < t.length →
      t.getD slot none = none →
      List.Perm ((t.set slot (some key)).filterMap id) (key :: t.filterMap id) := by
  intro t
  induction t with
  | nil => intro slot key h _; simp at h
  | cons a t ih =>
    intro slot key hlen hget
    cases slot with
    | zero =>
      have ha : a = none := by simpa using hget
      subst ha
      simp
    | succ s =>
      have hget2 : t.getD s none = none := by simpa using hget
      have hlen2 : s < t.length := by simpa using hlen
      have hperm := ih s key hlen2 hget2
      cases a with
      | none => simpa using hperm
      | some b =>
        simp only [List.set_cons_succ, List.filterMap_cons, id]
        exact (hperm.cons b).trans (List.Perm.swap key b _)

theorem mem_filterMap_of_getD {t : List (Option Int)} {i : Nat} {key : Int}
    (h : t.getD i none = some key) : key ∈ t.filterMap id := by
  induction t generalizing i with
  | nil => simp [List.getD] at h
  | cons a t ih =>
    cases i with
    | zero =>
      have ha : a = some key := by simpa using h
      subst ha
      simp
    | succ n =>
      have h2 : t.getD n none = some key := by simpa using h
      cases a with
      | none => simpa using ih h2
      | some b => simpa using Or.inr (ih h2)

theorem findEmptyLin_some {t : List (Option Int)} :
    ∀ {c i j : Nat}, findEmptyLin t i c = some j →
      i ≤ j ∧ j < i + c ∧ t.getD j none = none := by
  intro c
  induction c with
  | zero => intro i j h; simp [findEmptyLin] at h
  | succ c ih =>
    intro i j h
    rw [findEmptyLin] at h
    by_cases hg : t.getD i none = none
    · rw [if_pos hg] at h
      injection h with h
      subst h
      exact ⟨le_refl _, by omega, hg⟩
    · rw [if_neg hg] at h
      obtain ⟨h1, h2, h3⟩ := ih h
      exact ⟨by omega, by omega, h3⟩

theorem cleanLoop_some {t : List (Option Int)} {mask : Nat} :
    ∀ {fuel i per j : Nat}, cleanLoop t mask i per fuel = some j → i ≤ mask →
      j ≤ mask ∧ t.getD j none = none := by
  intro fuel
  induction fuel with
  | zero => intro i per j h hi; simp [cleanLoop] at h
  | succ fuel ih =>
    intro i per j h hi
    simp only [cleanLoop] at h
    by_cases hg : t.getD i none = none
    · rw [if_pos hg] at h
      injection h with h
      subst h
      exact ⟨hi, hg⟩
    · rw [if_neg hg] at h
      by_cases hp : i + linearProbes ≤ mask
      · rw [if_pos hp] at h
        cases hf : findEmptyLin t (i + 1) linearProbes with
        | some j2 =>
          rw [hf] at h
          injection h with h
          subst h
          obtain ⟨f1, f2, f3⟩ := findEmptyLin_some hf
          have h9 : linearProbes = 9 := rfl
          exact ⟨by omega, f3⟩
        | none =>
          rw [hf] at h
          exact ih h Nat.and_le_right
      · rw [if_neg hp] at h
        exact ih h Nat.and_le_right

theorem insertClean_some {t : List (Option Int)} {key : Int} {t2 : List (Option Int)}
    (h : insertClean t key = some t2) (hlen : 1 ≤ t.length) :
    t2.length = t.length ∧ List.Perm (t2.filterMap id) (key :: t.filterMap id) := by
  simp only [insertClean] at h
  cases hc : cleanLoop t (t.length - 1) (usize (pyHashInt key) &&& (t.length - 1))
      (usize (pyHashInt key)) (t.length + 16) with
  | none => rw [hc] at h; simp at h
  | some slot =>
    rw [hc] at h
    simp only [Option.map_some'] at h
    obtain ⟨hs1, hs2⟩ := cleanLoop_some hc Nat.and_le_right
    have hslot : slot < t.length := by omega
    injection h with h
    subst h
    exact ⟨by simp, filterMap_set_perm t slot key hslot hs2⟩

theorem growSizeAux_ge : ∀ (f ns mu : Nat), ns ≤ growSizeAux f ns mu := by
  intro f
  induction f with
  | zero => intro ns mu; exact le_refl _
  | succ f ih =>
    intro ns mu
    rw [growSizeAux]
    by_cases hc : ns ≤ mu
    · rw [if_pos hc]
      exact le_trans (by omega) (ih (ns * 2) mu)
    · rw [if_neg hc]

theorem growSize_pos (mu : Nat) : 1 ≤ growSize mu :=
  le_trans (by decide : 1 ≤ pySetMinSize) (growSizeAux_ge (mu + 1) pySetMinSize mu)

theorem filterMap_replicate_none (n : Nat) :
    (List.replicate n (none : Option Int)).filterMap id = [] := by
  induction n with
  | zero => rfl
  | succ n ih => simp [List.replicate_succ, ih]

theorem foldlM_insertClean {keys : List Int} :
    ∀ {t0 tf : List (Option Int)}, List.foldlM insertClean t0 keys = some tf →
      1 ≤ t0.length →
      tf.length = t0.length ∧ List.Perm (tf.filterMap id) (keys ++ t0.filterMap id) := by
  induction keys with
  | nil =>
    intro t0 tf h hlen
    replace h : some t0 = some tf := h
    injection h with h
    subst h
    exact ⟨rfl, by simp⟩
  | cons k rest ih =>
    intro t0 tf h hlen
    rw [List.foldlM_cons] at h
    cases hic : insertClean t0 k with
    | none => rw [hic] at h; simp at h
    | some t1 =>
      rw [hic] at h
      replace h : List.foldlM insertClean t1 rest = some tf := h
      obtain ⟨l1, p1⟩ := insertClean_some hic hlen
      obtain ⟨l2, p2⟩ := ih h (by omega)
      refine ⟨by omega, ?_⟩
      have hmid := (List.Perm.append_left rest p1).trans List.perm_middle
      simpa using p2.trans hmid

theorem setResize_some {s : PySet} {minused : Nat} {s2 : PySet}
    (h : setResize s minused = some s2) :
    1 ≤ s2.table.length ∧ List.Perm (setElems s2) (setElems s) := by
  simp only [setResize] at h
  cases hf : List.foldlM insertClean (List.replicate (growSize minused) none) (setElems s) with
  | none => rw [hf] at h; simp at h
  | some tf =>
    rw [hf] at h
    simp only [Option.map_some'] at h
    obtain ⟨l1, p1⟩ := foldlM_insertClean hf (by simpa using growSize_pos minused)
    injection h with h
    subst h
    constructor
    · show 1 ≤ tf.length
      rw [l1]
      simpa using growSize_pos minused
    · show List.Perm (tf.filterMap id) _
      rw [filterMap_replicate_none] at p1
      simpa using p1

theorem setAdd_some {s : PySet} {key : Int} {s2 : PySet}
    (h : setAdd s key = some s2) (hlen : 1 ≤ s.table.length) :
    1 ≤ s2.table.length ∧ ∀ x : Int, x ∈ setElems s2 ↔ x = key ∨ x ∈ setElems s := by
  simp only [setAdd] at h
  cases hp : probeLoop s.table (s.table.length - 1) key
      (usize (pyHashInt key) &&& (s.table.length - 1)) (usize (pyHashInt key))
      (s.table.length + 16) with
  | none => rw [hp] at h; simp at h
  | some br =>
    obtain ⟨b, slot⟩ := br
    rw [hp] at h
    obtain ⟨hs1, hs2, hs3⟩ := probeLoop_some hp Nat.and_le_right
    cases b with
    | false =>
      injection h with h
      subst h
      have hk : key ∈ setElems s := mem_filterMap_of_getD (hs3 rfl)
      exact ⟨hlen, fun x => ⟨fun hx => Or.inr hx, fun hx => hx.elim (fun he => he ▸ hk) id⟩⟩
    | true =>
      have hempty := hs2 rfl
      have hslot : slot < s.table.length := by omega
      have hperm := filterMap_set_perm s.table slot key hslot hempty
      replace h : (if (s.used + 1) * 5 < (s.table.length - 1) * 3 then
          some (⟨s.table.set slot (some key), s.used + 1⟩ : PySet)
        else setResize ⟨s.table.set slot (some key), s.used + 1⟩
          (if s.used + 1 > 50000 then (s.used + 1) * 2 else (s.used + 1) * 4)) = some s2 := h
      by_cases hfill : (s.used + 1) * 5 < (s.table.length - 1) * 3
      · rw [if_pos hfill] at h
        injection h with h
        subst h
        refine ⟨by simpa using hlen, fun x => ?_⟩
        show x ∈ (s.table.set slot (some key)).filterMap id ↔ _
        rw [hperm.mem_iff]
        simp [setElems]
      · rw [if_neg hfill] at h
        obtain ⟨r1, r2⟩ := setResize_some h
        refine ⟨r1, fun x => ?_⟩
        rw [r2.mem_iff]
        show x ∈ (s.table.set slot (some key)).filterMap id ↔ _
        rw [hperm.mem_iff]
        simp [setElems]

theorem foldlM_setAdd_mem {l : List Int} :
    ∀ {s0 s : PySet}, List.foldlM setAdd s0 l = some s → 1 ≤ s0.table.length →
      1 ≤ s.table.length ∧ ∀ x, x ∈ setElems s ↔ x ∈ l ∨ x ∈ setElems s0 := by
  induction l with
  | nil =>
    intro s0 s h hlen
    replace h : some s0 = some s := h
    injection h with h
    subst h
    exact ⟨hlen, fun x => by simp⟩
  | cons a rest ih =>
    intro s0 s h hlen
    rw [List.foldlM_cons] at h
    cases ha : setAdd s0 a with
    | none => rw [ha] at h; simp at h
    | some s1 =>
      rw [ha] at h
      replace h : List.foldlM setAdd s1 rest = some s := h
      obtain ⟨l1, m1⟩ := setAdd_some ha hlen
      obtain ⟨l2, m2⟩ := ih h l1
      refine ⟨l2, fun x => ?_⟩
      rw [m2 x, m1 x]
      simp only [List.mem_cons]
      tauto

theorem pySetOfList_mem {l : List Int} {s : PySet} (h : pySetOfList l = some s) :
    ∀ x, x ∈ setElems s ↔ x ∈ l := by
  obtain ⟨_, hm⟩ := foldlM_setAdd_mem h (by decide)
  intro x
  rw [hm x]
  simp [emptyPySet, setElems, filterMap_replicate_none]

theorem buildAxis_mem {vals xs : List Int} (h : buildAxis vals = some xs) :
    ∀ x, x ∈ xs ↔ x ∈ vals := by
  simp only [buildAxis] at h
  cases hp : pySetOfList (pySorted vals) with
  | none => rw [hp] at h; simp at h
  | some s =>
    rw [hp] at h
    simp only [Option.map_some'] at h
    injection h with h
    subst h
    intro x
    rw [pySetOfList_mem hp x]
    exact (List.perm_insertionSort _ vals).mem_iff

/-! ## Lemmas: the per-LED loop keeps positions in bounds -/

theorem pySetdefault_fst_bound {d : List (Int × Nat)} {k : Int} {v bound : Nat}
    (hd : ∀ p ∈ d, p.2 < bound) (hv : v < bound) : (pySetdefault d k v).1 < bound := by
  unfold pySetdefault
  cases hf : d.find? (fun p => p.1 == k) with
  | none => simpa using hv
  | some p => simpa using hd p (List.mem_of_find?_eq_some hf)

theorem pySetdefault_snd_bound {d : List (Int × Nat)} {k : Int} {v bound : Nat}
    (hd : ∀ p ∈ d, p.2 < bound) (hv : v < bound) :
    ∀ p ∈ (pySetdefault d k v).2, p.2 < bound := by
  unfold pySetdefault
  cases hf : d.find? (fun p => p.1 == k) with
  | none =>
    intro p hp
    simp only [List.mem_append, List.mem_singleton] at hp
    rcases hp with hp | hp
    · exact hd p hp
    · subst hp; exact hv
  | some q => simpa using hd

theorem fallbackStep_bounds {nx ny : Nat} {st : LoopState} {mx my : List (Int × Nat)}
    {lx ly : Nat} (h3 : ∀ p ∈ st.poss, p.1 < nx ∧ p.2 < ny)
    (hmx : ∀ p ∈ mx, p.2 < nx) (hmy : ∀ p ∈ my, p.2 < ny)
    (hlx : lx < nx) (hly : ly < ny) : StBounds nx ny (fallbackStep st mx my lx ly) := by
  refine ⟨hmx, hmy, fun p hp => ?_⟩
  simp only [fallbackStep, List.mem_append, List.mem_singleton] at hp
  rcases hp with hp | hp
  · exact h3 p hp
  · subst hp; exact ⟨hlx, hly⟩

theorem labelStep_bounds {nx ny : Nat} {st : LoopState} {mx my : List (Int × Nat)}
    {lx ly : Nat} {lbl : List Char} (h3 : ∀ p ∈ st.poss, p.1 < nx ∧ p.2 < ny)
    (hmx : ∀ p ∈ mx, p.2 < nx) (hmy : ∀ p ∈ my, p.2 < ny)
    (hlx : lx < nx) (hly : ly < ny) : StBounds nx ny (labelStep st mx my lx ly lbl) := by
  refine ⟨hmx, hmy, fun p hp => ?_⟩
  simp only [labelStep, List.mem_append, List.mem_singleton] at hp
  rcases hp with hp | hp
  · exact h3 p hp
  · subst hp; exact ⟨hlx, hly⟩

theorem processLedCore_c5 {ms : Bool} {nx ny : Nat} {lo : Option (List KeyMeta)}
    {st : LoopState} {led : Led} {lx0 ly0 : Nat}
    (hst : StBounds nx ny st) (hlx : lx0 < nx) (hly : ly0 < ny) :
    processLedCore ms lo st led lx0 ly0 ≠ .error .valueErrIndex ∧
      ∀ st2, processLedCore ms lo st led lx0 ly0 = .ok st2 → StBounds nx ny st2 := by
  obtain ⟨h1, h2, h3⟩ := hst
  have hr1 : ∀ mr : Int, (if ms then pySetdefault st.matxs mr lx0 else (lx0, st.matxs)).1 < nx ∧
      ∀ p ∈ (if ms then pySetdefault st.matxs mr lx0 else (lx0, st.matxs)).2, p.2 < nx := by
    intro mr
    cases ms
    · exact ⟨hlx, h1⟩
    · exact ⟨pySetdefault_fst_bound h1 hlx, pySetdefault_snd_bound h1 hlx⟩
  have hr2 : ∀ mc : Int, (if ms then pySetdefault st.matys mc ly0 else (ly0, st.matys)).1 < ny ∧
      ∀ p ∈ (if ms then pySetdefault st.matys mc ly0 else (ly0, st.matys)).2, p.2 < ny := by
    intro mc
    cases ms
    · exact ⟨hly, h2⟩
    · exact ⟨pySetdefault_fst_bound h2 hly, pySetdefault_snd_bound h2 hly⟩
  cases hm : led.matrix with
  | none =>
    cases lo with
    | none =>
      simp only [processLedCore, hm]
      exact ⟨by simp, fun st2 hok => by
        injection hok with hok
        subst hok
        exact fallbackStep_bounds h3 h1 h2 hlx hly⟩
    | some meta =>
      simp only [processLedCore, hm]
      exact ⟨by simp, fun st2 hok => by
        injection hok with hok
        subst hok
        exact fallbackStep_bounds h3 h1 h2 hlx hly⟩
  | some m =>
    cases lo with
    | none =>
      simp only [processLedCore, hm]
      exact ⟨by simp, fun st2 hok => by
        injection hok with hok
        subst hok
        exact fallbackStep_bounds h3 h1 h2 hlx hly⟩
    | some meta =>
      simp only [processLedCore, hm]
      cases hk : findKey meta m with
      | none =>
        exact ⟨by simp, fun st2 hok => by
          injection hok with hok
          subst hok
          exact fallbackStep_bounds h3 (hr1 m.1).2 (hr2 m.2).2 (hr1 m.1).1 (hr2 m.2).1⟩
      | some k =>
        cases hl : k.label with
        | none =>
          simp only [hl]
          exact ⟨by simp, fun st2 hok => by
            injection hok with hok
            subst hok
            exact fallbackStep_bounds h3 (hr1 m.1).2 (hr2 m.2).2 (hr1 m.1).1 (hr2 m.2).1⟩
        | some rawl =>
          simp only [hl]
          cases hs : sanitizeLabel rawl with
          | error e =>
            simp only [hs]
            refine ⟨fun hc => ?_, fun st2 hok => by simp at hok⟩
            injection hc with hc
            subst hc
            rcases sanitizeLabel_error hs with he | he <;> cases he
          | ok lbl =>
            simp only [hs]
            exact ⟨by simp, fun st2 hok => by
              injection hok with hok
              subst hok
              exact labelStep_bounds h3 (hr1 m.1).2 (hr2 m.2).2 (hr1 m.1).1 (hr2 m.2).1⟩

theorem processLed_eq_core {ms : Bool} {xs ys : List Int} {lo : Option (List KeyMeta)}
    {st : LoopState} {led : Led} {nx0 ny0 : Nat}
    (hnx : pyIndex xs (selX ms led) = .ok nx0) (hny : pyIndex ys (selY ms led) = .ok ny0) :
    processLed ms xs ys lo st led = processLedCore ms lo st led nx0 ny0 := by
  unfold processLed
  rw [hnx, hny]

theorem processLed_c5 {ms : Bool} {xs ys : List Int} (lo : Option (List KeyMeta))
    {st : LoopState} {led : Led}
    (hx : selX ms led ∈ xs) (hy : selY ms led ∈ ys)
    (hst : StBounds xs.length ys.length st) :
    processLed ms xs ys lo st led ≠ .error .valueErrIndex ∧
      ∀ st2, processLed ms xs ys lo st led = .ok st2 → StBounds xs.length ys.length st2 := by
  obtain ⟨nx0, hnx, hnxlt⟩ := pyIndex_mem hx
  obtain ⟨ny0, hny, hnylt⟩ := pyIndex_mem hy
  rw [processLed_eq_core hnx hny]
  exact processLedCore_c5 hst hnxlt hnylt

theorem foldlM_processLed_c5 {ms : Bool} {xs ys : List Int} (lo : Option (List KeyMeta)) :
    ∀ {leds : List Led} {st : LoopState},
      (∀ led ∈ leds, selX ms led ∈ xs ∧ selY ms led ∈ ys) →
      StBounds xs.length ys.length st →
      List.foldlM (processLed ms xs ys lo) st leds ≠ .error .valueErrIndex ∧
        ∀ st2, List.foldlM (processLed ms xs ys lo) st leds = .ok st2 →
          StBounds xs.length ys.length st2 := by
  intro leds
  induction leds with
  | nil =>
    intro st hmem hst
    rw [List.foldlM_nil]
    refine ⟨fun hc => Except.noConfusion hc, fun st2 hok => ?_⟩
    replace hok : (Except.ok st : Except PyErr LoopState) = Except.ok st2 := hok
    injection hok with hok
    subst hok
    exact hst
  | cons led rest ih =>
    intro st hmem hst
    rw [List.foldlM_cons]
    obtain ⟨hne, hok⟩ := processLed_c5 lo (hmem led (by simp)).1 (hmem led (by simp)).2 hst
    cases hp : processLed ms xs ys lo st led with
    | error e =>
      refine ⟨fun hc => ?_, fun st2 hok2 => ?_⟩
      · replace hc : (Except.error e : Except PyErr LoopState) = .error .valueErrIndex := hc
        injection hc with hc
        subst hc
        exact hne hp
      · replace hok2 : (Except.error e : Except PyErr LoopState) = .ok st2 := hok2
        exact Except.noConfusion hok2
    | ok st1 =>
      exact ih (fun l hl => hmem l (by simp [hl])) (hok st1 hp)

/-! ## Lemmas: fallback naming -/

theorem processLedCore_shape {ms : Bool} {lo : Option (List KeyMeta)} {st : LoopState}
    {led : Led} {lx0 ly0 : Nat} {st2 : LoopState}
    (h : processLedCore ms lo st led lx0 ly0 = .ok st2) :
    ∃ n0, st2.names = st.names ++ [n0] ∧
      ((usesFallback lo led = true ∧ n0 = lightName (st.unnamed + 1) ∧
          st2.unnamed = st.unnamed + 1) ∨
        (usesFallback lo led = false ∧ st2.unnamed = st.unnamed)) := by
  cases hm : led.matrix with
  | none =>
    cases lo with
    | none =>
      simp only [processLedCore, hm] at h
      injection h with h
      subst h
      exact ⟨_, rfl, Or.inl ⟨by simp [usesFallback, hm], rfl, rfl⟩⟩
    | some meta =>
      simp only [processLedCore, hm] at h
      injection h with h
      subst h
      exact ⟨_, rfl, Or.inl ⟨by simp [usesFallback, hm], rfl, rfl⟩⟩
  | some m =>
    cases lo with
    | none =>
      simp only [processLedCore, hm] at h
      injection h with h
      subst h
      exact ⟨_, rfl, Or.inl ⟨by simp [usesFallback, hm], rfl, rfl⟩⟩
    | some meta =>
      simp only [processLedCore, hm] at h
      cases hk : findKey meta m with
      | none =>
        simp only [hk] at h
        injection h with h
        subst h
        exact ⟨_, rfl, Or.inl ⟨by simp [usesFallback, hm, hk], rfl, rfl⟩⟩
      | some k =>
        simp only [hk] at h
        cases hl : k.label with
        | none =>
          simp only [hl] at h
          injection h with h
          subst h
          exact ⟨_, rfl, Or.inl ⟨by simp [usesFallback, hm, hk, hl], rfl, rfl⟩⟩
        | some rawl =>
          simp only [hl] at h
          cases hs : sanitizeLabel rawl with
          | error e =>
            simp only [hs] at h
            exact Except.noConfusion h
          | ok lbl =>
            simp only [hs] at h
            injection h with h
            subst h
            exact ⟨_, rfl, Or.inr ⟨by simp [usesFallback, hm, hk, hl], rfl⟩⟩

theorem processLed_ok_core {ms : Bool} {xs ys : List Int} {lo : Option (List KeyMeta)}
    {st : LoopState} {led : Led} {st2 : LoopState}
    (h : processLed ms xs ys lo st led = .ok st2) :
    ∃ lx0 ly0, processLedCore ms lo st led lx0 ly0 = .ok st2 := by
  unfold processLed at h
  cases h1 : pyIndex xs (selX ms led) with
  | error e =>
    cases h2 : pyIndex ys (selY ms led) with
    | error e2 =>
      simp only [h1, h2] at h
      exact Except.noConfusion h
    | ok ly0 =>
      simp only [h1, h2] at h
      exact Except.noConfusion h
  | ok lx0 =>
    cases h2 : pyIndex ys (selY ms led) with
    | error e =>
      simp only [h1, h2] at h
      exact Except.noConfusion h
    | ok ly0 =>
      simp only [h1, h2] at h
      exact ⟨lx0, ly0, h⟩

theorem fbFilter_nil (lo : Option (List KeyMeta)) : fbFilter lo [] [] = [] := rfl

theorem fbFilter_cons {lo : Option (List KeyMeta)} {led : Led} {rest : List Led}
    {n0 : List Char} {extra : List (List Char)} :
    fbFilter lo (led :: rest) (n0 :: extra) =
      if usesFallback lo led then n0 :: fbFilter lo rest extra
      else fbFilter lo rest extra := by
  simp only [fbFilter, List.zip_cons_cons, List.filter_cons]
  by_cases hf : usesFallback lo led <;> simp [hf]

theorem foldlM_processLed_names {ms : Bool} {xs ys : List Int} (lo : Option (List KeyMeta)) :
    ∀ {leds : List Led} {st st2 : LoopState},
      List.foldlM (processLed ms xs ys lo) st leds = .ok st2 →
      ∃ extra, st2.names = st.names ++ extra ∧ extra.length = leds.length ∧
        st2.unnamed = st.unnamed + leds.countP (usesFallback lo) ∧
        fbFilter lo leds extra =
          (List.range (leds.countP (usesFallback lo))).map
            (fun i => lightName (st.unnamed + 1 + i)) := by
  intro leds
  induction leds with
  | nil =>
    intro st st2 h
    replace h : (Except.ok st : Except PyErr LoopState) = Except.ok st2 := h
    injection h with h
    subst h
    exact ⟨[], by simp, rfl, by simp, by simp [fbFilter]⟩
  | cons led rest ih =>
    intro st st2 h
    rw [List.foldlM_cons] at h
    cases hp : processLed ms xs ys lo st led with
    | error e =>
      rw [hp] at h
      replace h : (Except.error e : Except PyErr LoopState) = .ok st2 := h
      exact Except.noConfusion h
    | ok st1 =>
      rw [hp] at h
      replace h : List.foldlM (processLed ms xs ys lo) st1 rest = .ok st2 := h
      obtain ⟨lx0, ly0, hcore⟩ := processLed_ok_core hp
      obtain ⟨n0, hn0, hcase⟩ := processLedCore_shape hcore
      obtain ⟨extra, he1, he2, he3, he4⟩ := ih h
      refine ⟨n0 :: extra, ?_, by simp [he2], ?_, ?_⟩
      · rw [he1, hn0, List.append_assoc, List.singleton_append]
      · rw [List.countP_cons]
        rcases hcase with ⟨hf, -, hu⟩ | ⟨hf, hu⟩ <;>
          (rw [he3, hu]; simp [hf]; try omega)
      · rcases hcase with ⟨hf, hn, hu⟩ | ⟨hf, hu⟩
        · have hcnt : (led :: rest).countP (usesFallback lo) =
              rest.countP (usesFallback lo) + 1 := by
            rw [List.countP_cons, hf]
            simp
          rw [fbFilter_cons, if_pos hf, hcnt, List.range_succ_eq_map _, List.map_cons,
            List.map_map]
          have hhead : n0 = lightName (st.unnamed + 1 + 0) := by simp [hn]
          have htail : fbFilter lo rest extra =
              (List.range (rest.countP (usesFallback lo))).map
                ((fun i => lightName (st.unnamed + 1 + i)) ∘ Nat.succ) := by
            rw [he4, hu]
            refine List.map_congr_left (fun i _ => ?_)
            have harith : st.unnamed + 1 + 1 + i = st.unnamed + 1 + Nat.succ i := by omega
            simp only [Function.comp_apply, harith]
          rw [hhead, htail]
        · have hcnt : (led :: rest).countP (usesFallback lo) =
              rest.countP (usesFallback lo) := by
            rw [List.countP_cons, hf]
            simp
          rw [fbFilter_cons, if_neg (by simp [hf]), hcnt, he4, hu]

theorem findKey_append_first {pre post : List KeyMeta} {k : KeyMeta} {m : Int × Int}
    (hpre : ∀ k2 ∈ pre, k2.matrix ≠ m) (hk : k.matrix = m) :
    findKey (pre ++ k :: post) m = some k := by
  induction pre with
  | nil => simp [findKey, List.find?_cons, hk]
  | cons a pre ih =>
    have ha : (a.matrix == m) = false := by
      simpa using hpre a (by simp)
    have ih2 := ih (fun k2 h2 => hpre k2 (List.mem_cons_of_mem a h2))
    simp only [findKey] at ih2
    simp only [List.cons_append, findKey]
    rw [List.find?_cons_of_neg _ (by simp [ha])]
    exact ih2

/-! ## Claim theorems -/

/-- C1: FALSE of the code.  The script builds its axis sequences as
`list(set(sorted(...)))`, so the sorted order is discarded and the CPython
hash-table iteration order remains: for two LEDs at integer `x` 1 and 8 the
axis list is `[8, 1]`, the LED at `x = 1` resolves to gridX 1 and the LED at
`x = 8` to gridX 0 — not the ascending 0-based ranks (0 and 1) the claim
states.  (`sorted(set(...))` was clearly intended.) -/
theorem c1_code_eval :
    buildAxis (c1doc.layout.map (selX false)) = some [8, 1] ∧
      transform c1doc false = .ok c1out ∧
      c1out.ledPositions ≠ specPositions c1doc false ∧
      specPositions c1doc false = [(0, 0), (1, 0)] :=
  ⟨rfl, rfl, by decide, by decide⟩

/-- C2: FALSE of the code.  The collapse memos are keyed the wrong way round:
`matxs` (feeding gridX) is keyed by `matrix[0]` (the row) and `matys`
(feeding gridY) by `matrix[1]` (the column).  In matrix-sizing mode with
layout metadata present, the three LEDs of `c2doc` at matrix pairs
`(0,0), (1,0), (1,1)` resolve to positions `(0,0), (0,0), (0,1)`: the second
and third LED share matrix row 1 yet get gridY 0 and 1. -/
theorem c2_code_eval :
    transform c2doc true = .ok c2out ∧
      c2doc.layout.map (fun led => led.matrix.map Prod.fst) = [some 0, some 1, some 1] ∧
      c2out.ledPositions.map Prod.snd = [0, 0, 1] :=
  ⟨rfl, by decide, by decide⟩

/-- C3 counterexample: sanitization CAN fail.  The two-character non-ASCII
label `"aé"` fails the ASCII check and `unicodedata.name` then raises
`TypeError` (it accepts exactly one character), aborting the file. -/
theorem c3_counterexample :
    sanitizeLabel ['a', 'é'] = .error .typeErr ∧
      transform c3doc false = .error .typeErr :=
  ⟨rfl, rfl⟩

/-- C3 (amended): sanitization never raises for labels that pass the ASCII
check; a label failing the ASCII check raises `TypeError` whenever it is not
exactly one character, and `ValueError` when its single character has no
Unicode name — and such an exception aborts the file's processing. -/
theorem c3_amended (l : List Char) :
    (pyIsAscii l = true → (sanitizeLabel l).isOk = true) ∧
      (pyIsAscii l = false → 2 ≤ l.length → sanitizeLabel l = .error .typeErr) ∧
      (∀ c, l = [c] → pyIsAscii l = false → ucdName c = none →
        sanitizeLabel l = .error .valueErrName) := by
  refine ⟨fun h => ?_, fun h h2 => ?_, fun c hc h hu => ?_⟩
  · rw [sanitizeLabel_ascii h]
    rfl
  · match l, h2 with
    | a :: b :: t, _ =>
      simp only [pyIsAscii] at h
      simp [sanitizeLabel, pyIsAscii, h, unicodedataName]
  · subst hc
    simp [sanitizeLabel, h, unicodedataName, hu]

theorem c3_amended_witness :
    pyIsAscii ['a', 'é'] = false ∧ 2 ≤ (['a', 'é'] : List Char).length ∧
      sanitizeLabel ['a', 'é'] = .error .typeErr :=
  ⟨by decide, by decide, (c3_amended ['a', 'é']).2.1 (by decide) (by decide)⟩

/-- C4 counterexample: an LED whose matching metadata entry carries the EMPTY
label resolves to the empty display name, not to the fallback `"Light 1"`:
the code only tests `"label" in key`, never emptiness. -/
theorem c4_counterexample :
    transform c4doc false = .ok c4out ∧ c4out.ledNames = [[]] ∧
      ([] : List Char) ≠ lightName 1 ∧ c4out.ledNames ≠ [lightName 1] :=
  ⟨rfl, rfl, by decide, by decide⟩

/-- C4 (amended): a matching metadata entry that HAS a `label` key resolves
to that label even when the label is empty — the LED's name is the empty
string and the unnamed counter does not move; the fallback applies only when
there is no match or the matching entry lacks a `label` key. -/
theorem c4_amended (ms : Bool) (xs ys : List Int) (meta : List KeyMeta)
    (st : LoopState) (led : Led) (m : Int × Int) (k : KeyMeta)
    (hled : led.matrix = some m) (hx : selX ms led ∈ xs) (hy : selY ms led ∈ ys)
    (hfind : findKey meta m = some k) (hlbl : k.label = some []) :
    ∃ st2, processLed ms xs ys (some meta) st led = .ok st2 ∧
      st2.names = st.names ++ [[]] ∧ st2.unnamed = st.unnamed := by
  obtain ⟨nx0, hnx, -⟩ := pyIndex_mem hx
  obtain ⟨ny0, hny, -⟩ := pyIndex_mem hy
  rw [processLed_eq_core hnx hny]
  unfold processLedCore
  simp only [hled, hfind, hlbl]
  exact ⟨_, rfl, rfl, rfl⟩

theorem c4_amended_witness :
    ∃ st2, processLed false [0] [0] (some [⟨(0, 0), some []⟩]) initState
        ⟨0, 0, some (0, 0)⟩ = .ok st2 ∧
      st2.names = initState.names ++ [[]] ∧ st2.unnamed = initState.unnamed :=
  c4_amended false [0] [0] [⟨(0, 0), some []⟩] initState ⟨0, 0, some (0, 0)⟩ (0, 0)
    ⟨(0, 0), some []⟩ rfl (by decide) (by decide) rfl rfl

/-- C5: in both modes the rank lookup is total — the transform never raises
the `list.index` `ValueError` — and on success every emitted grid position is
componentwise below the grid size (positions are naturals, so nonnegative). -/
theorem c5_bounds_total (d : Doc) (ms : Bool) :
    transform d ms ≠ .error .valueErrIndex ∧
      ∀ out, transform d ms = .ok out →
        ∀ p ∈ out.ledPositions, p.1 < out.width ∧ p.2 < out.height := by
  unfold transform
  cases hx : buildAxis (d.layout.map (selX ms)) with
  | none =>
    cases hy : buildAxis (d.layout.map (selY ms)) with
    | none =>
      simp only [hx, hy]
      exact ⟨fun hc => by simp at hc, fun out hout => Except.noConfusion hout⟩
    | some ys =>
      simp only [hx, hy]
      exact ⟨fun hc => by simp at hc, fun out hout => Except.noConfusion hout⟩
  | some xs =>
    cases hy : buildAxis (d.layout.map (selY ms)) with
    | none =>
      simp only [hx, hy]
      exact ⟨fun hc => by simp at hc, fun out hout => Except.noConfusion hout⟩
    | some ys =>
      simp only [hx, hy]
      have hmem : ∀ led ∈ d.layout, selX ms led ∈ xs ∧ selY ms led ∈ ys := fun led hl =>
        ⟨(buildAxis_mem hx _).mpr (List.mem_map_of_mem _ hl),
         (buildAxis_mem hy _).mpr (List.mem_map_of_mem _ hl)⟩
      have hinit : StBounds xs.length ys.length initState := by
        refine ⟨?_, ?_, ?_⟩ <;> intro p hp <;> simp [initState] at hp
      obtain ⟨hne, hok⟩ := foldlM_processLed_c5 d.layouts hmem hinit
      cases hf : List.foldlM (processLed ms xs ys d.layouts) initState d.layout with
      | error e =>
        simp only [hf]
        refine ⟨fun hc => ?_, fun out hout => Except.noConfusion hout⟩
        injection hc with hc
        subst hc
        exact hne hf
      | ok st =>
        simp only [hf]
        refine ⟨fun hc => Except.noConfusion hc, fun out hout => ?_⟩
        injection hout with hout
        subst hout
        exact fun p hp => (hok st hf).2.2 p hp

theorem c5_witness : (0 : Nat) < c2out.width ∧ (1 : Nat) < c2out.height :=
  (c5_bounds_total c2doc true).2 c2out rfl ((0 : Nat), (1 : Nat)) (by decide)

/-- C6: for every label passing the ASCII check, the code's escaping (double
each backslash behind a guard, then escape each double quote behind a guard)
equals the canonical per-character escaping, and the result is well escaped:
no bare backslash or double quote survives. -/
theorem c6_escaping (l : List Char) (_hascii : pyIsAscii l = true) :
    escapeLbl l = l.flatMap escChar ∧ wellEscaped (escapeLbl l) = true := by
  refine ⟨escapeLbl_eq_flatMap l, ?_⟩
  rw [escapeLbl_eq_flatMap l]
  exact wellEscaped_flatMap l

theorem c6_witness :
    escapeLbl ['a', '\\', 'b', '"'] = (['a', '\\', 'b', '"'] : List Char).flatMap escChar ∧
      wellEscaped (escapeLbl ['a', '\\', 'b', '"']) = true :=
  c6_escaping ['a', '\\', 'b', '"'] (by decide)

/-- C7: on success, the fallback-named LEDs are named exactly
`"Light 1", "Light 2", …` in processing order (the Nth fallback gets
`"Light N"`), so the fallback names are pairwise distinct within one file. -/
theorem c7_fallback_names (d : Doc) (ms : Bool) (out : Output)
    (h : transform d ms = .ok out) :
    fbFilter d.layouts d.layout out.ledNames =
      (List.range (d.layout.countP (usesFallback d.layouts))).map
        (fun i => lightName (i + 1)) ∧
      (fbFilter d.layouts d.layout out.ledNames).Nodup := by
  unfold transform at h
  cases hx : buildAxis (d.layout.map (selX ms)) with
  | none =>
    cases hy : buildAxis (d.layout.map (selY ms)) with
    | none => simp only [hx, hy] at h; exact Except.noConfusion h
    | some ys => simp only [hx, hy] at h; exact Except.noConfusion h
  | some xs =>
    cases hy : buildAxis (d.layout.map (selY ms)) with
    | none => simp only [hx, hy] at h; exact Except.noConfusion h
    | some ys =>
      simp only [hx, hy] at h
      cases hf : List.foldlM (processLed ms xs ys d.layouts) initState d.layout with
      | error e => simp only [hf] at h; exact Except.noConfusion h
      | ok st =>
        simp only [hf] at h
        injection h with h
        subst h
        obtain ⟨extra, he1, he2, he3, he4⟩ := foldlM_processLed_names d.layouts hf
        have hnames : st.names = extra := by simpa using he1
        show fbFilter d.layouts d.layout st.names = _ ∧ (fbFilter d.layouts d.layout st.names).Nodup
        rw [hnames, he4]
        have h0 : initState.unnamed = 0 := rfl
        constructor
        · refine List.map_congr_left (fun i _ => ?_)
          rw [h0]
          exact congrArg lightName (by omega)
        · refine List.Nodup.map ?_ (List.nodup_range _)
          intro a b hab
          have := lightName_injective hab
          omega

theorem c7_witness :
    fbFilter c2doc.layouts c2doc.layout c2out.ledNames =
      (List.range (c2doc.layout.countP (usesFallback c2doc.layouts))).map
        (fun i => lightName (i + 1)) ∧
      (fbFilter c2doc.layouts c2doc.layout c2out.ledNames).Nodup :=
  c7_fallback_names c2doc true c2out rfl

/-- C8: the transform is a pure, deterministic function of the parsed
document and the matrix-sizing flag: running it twice on identical input
yields identical width, height and index/name/position tables. -/
theorem c8_deterministic (d1 d2 : Doc) (ms1 ms2 : Bool) (h1 : d1 = d2)
    (h2 : ms1 = ms2) : transform d1 ms1 = transform d2 ms2 := by
  rw [h1, h2]

theorem c8_witness : transform c1doc false = transform c1doc false :=
  c8_deterministic c1doc c1doc false false rfl rfl

/-- C9: a document with an empty `rgb_matrix.layout` succeeds, with width 0,
height 0 and empty index, name and position lists, in both modes and with or
without layout metadata. -/
theorem c9_empty_layout (d : Doc) (ms : Bool) (h : d.layout = []) :
    transform d ms = .ok ⟨0, 0, [], [], []⟩ := by
  obtain ⟨layout, lo⟩ := d
  replace h : layout = [] := h
  subst h
  rfl

theorem c9_witness : transform ⟨[], none⟩ false = .ok ⟨0, 0, [], [], []⟩ :=
  c9_empty_layout ⟨[], none⟩ false rfl

/-- C10: when several metadata entries match the LED's matrix pair, the FIRST
one in declared order is the lookup result, and the LED's resolved name comes
from that first entry's (sanitized) label. -/
theorem c10_first_match (ms : Bool) (xs ys : List Int) (pre post : List KeyMeta)
    (k : KeyMeta) (m : Int × Int) (led : Led) (st : LoopState) (rawl s : List Char)
    (hpre : ∀ k2 ∈ pre, k2.matrix ≠ m) (hk : k.matrix = m) (hled : led.matrix = some m)
    (hx : selX ms led ∈ xs) (hy : selY ms led ∈ ys)
    (hlbl : k.label = some rawl) (hs : sanitizeLabel rawl = .ok s) :
    findKey (pre ++ k :: post) m = some k ∧
      ∃ st2, processLed ms xs ys (some (pre ++ k :: post)) st led = .ok st2 ∧
        st2.names = st.names ++ [s] := by
  have hfind := @findKey_append_first pre post k m hpre hk
  refine ⟨hfind, ?_⟩
  obtain ⟨nx0, hnx, -⟩ := pyIndex_mem hx
  obtain ⟨ny0, hny, -⟩ := pyIndex_mem hy
  rw [processLed_eq_core hnx hny]
  unfold processLedCore
  simp only [hled, hfind, hlbl, hs]
  exact ⟨_, rfl, rfl⟩

theorem c10_witness :
    findKey ([⟨(9, 9), some ['z']⟩] ++ ⟨(0, 0), some ['E', 's', 'c']⟩ ::
        [⟨(0, 0), some ['X']⟩]) (0, 0) = some ⟨(0, 0), some ['E', 's', 'c']⟩ ∧
      ∃ st2, processLed false [0] [0]
          (some ([⟨(9, 9), some ['z']⟩] ++ ⟨(0, 0), some ['E', 's', 'c']⟩ ::
            [⟨(0, 0), some ['X']⟩])) initState ⟨0, 0, some (0, 0)⟩ = .ok st2 ∧
        st2.names = initState.names ++ [['E', 's', 'c']] :=
  c10_first_match false [0] [0] [⟨(9, 9), some ['z']⟩] [⟨(0, 0), some ['X']⟩]
    ⟨(0, 0), some ['E', 's', 'c']⟩ (0, 0) ⟨0, 0, some (0, 0)⟩ initState
    ['E', 's', 'c'] ['E', 's', 'c'] (by decide) rfl rfl (by decide) (by decide) rfl rfl

end Qmk2Srgb
